import Mathlib

/-!
Verification of the python-environment-tools discovery core.

This file shallowly embeds the Rust sources of the repository
(crates pet-cache, pet-fs, pet-python-utils, pet-global-virtualenvs,
pet-poetry and the pet discovery engine) as executable Lean definitions and
proves the specification claims about them.

Modelling conventions:
- A filesystem path (Rust PathBuf) is a list of components (FsPath := List String);
  PathBuf::join is list append, Path::ends_with is component-suffix testing,
  file_name is the last component.
- The filesystem is an explicit oracle record (metadata and read_dir results);
  fs::metadata(p).is_ok is (fs.metadata p).isSome.
- Machine integers (u128 timestamps, u32 depths) are Nat; only equality and
  small comparisons are performed on them, overflow is unreachable.
- Fallible operations return Option.
- The platform is fixed to Unix/Linux, matching the repository's own
  unix-only code (pet-cache/src/hash.rs uses std::os::unix).
- HashMaps are modelled as association lists in insertion order; the claims
  proved here do not depend on hash-map iteration order (any-mismatch and
  membership properties are order-independent).
- Side effects that the claims quantify over (directory reads, locator
  invocations, external process spawns) are counted by instrumented results.
-/

/-! ## Paths -/

abbrev FsPath : Type := List String

namespace FsPath

/-- Rust Path::ends_with: the given components are a suffix of the path. -/
def endsWith (p : FsPath) (suffix_ : List String) : Bool :=
  suffix_.isSuffixOf p

/-- Rust Path::file_name: the last component. -/
def fileName (p : FsPath) : Option String :=
  p.getLast?

end FsPath

/-! ## Filesystem oracle -/

/-- Result of fs::metadata: creation/modification clock readings, each of
which can independently be unavailable (metadata.created()/modified() are
Result-valued in Rust). Times are Unix-epoch milliseconds. -/
structure Metadata where
  created : Option Nat
  modified : Option Nat
deriving DecidableEq

/-- One entry of a directory listing, as produced by fs::read_dir:
a file name plus the result of DirEntry::file_type (None when the
file_type call fails). -/
structure DirEntry where
  name : String
  is_dir : Option Bool
deriving DecidableEq

/-- The filesystem, as the two effect oracles the embedded code consults:
fs::metadata and fs::read_dir (None models an Err result). -/
structure FS where
  metadata : FsPath → Option Metadata
  readDir : FsPath → Option (List DirEntry)

/-- Rust path.exists() / fs::metadata(path).is_ok(). -/
def pathExists (fs : FS) (p : FsPath) : Bool :=
  (fs.metadata p).isSome

/-! ## pet-fs/src/times.rs -/

/-- Recorded modification/creation timestamps (times.rs, struct MTimeCTime). -/
structure MTimeCTime where
  mtime : Nat
  ctime : Nat
deriving DecidableEq

/-- times.rs get_mtime_ctime: Some only when the metadata call succeeds and
both the created and the modified clock are available. -/
def get_mtime_ctime (fs : FS) (path : FsPath) : Option MTimeCTime :=
  match fs.metadata path with
  | none => none
  | some md =>
    match md.modified, md.created with
    | some m, some c => some { mtime := m, ctime := c }
    | _, _ => none

/-! ## pet-python-utils/src/executable.rs -/

/-- Exact match of the regex fragment (\d+\.?)* : a concatenation of blocks,
each one-or-more digits followed by an optional dot.  `state = after at
least one digit of the current block`. -/
def digitDotTail : List Char → Bool
  | [] => true
  | '.' :: [] => true
  | '.' :: c :: rest => c.isDigit && digitDotTail (c :: rest)
  | c :: rest => c.isDigit && digitDotTail rest

/-- Exact match of (\d+\.?)* against a whole string of characters. -/
def isDigitDotSeq : List Char → Bool
  | [] => true
  | c :: rest => c.isDigit && digitDotTail rest

/-- Regex::is_match for UNIX_EXE = python(\d+\.?)*$ : some substring ending
at the end of the string matches, i.e. some suffix is "python" followed by
an exact (\d+\.?)* sequence.  (Character-list form of the name.) -/
def unix_exe_is_match (name : List Char) : Bool :=
  (List.range (name.length + 1)).any fun i =>
    let s := name.drop i
    "python".data.isPrefixOf s && isDigitDotSeq (s.drop 6)

/-- executable.rs is_python_executable_name (unix branch): lowercase the
file name, require the "python" prefix, then match UNIX_EXE.  (Lowercasing
and the prefix test are performed character-wise on the name's character
list, the model of Rust's str::to_lowercase and str::starts_with.) -/
def is_python_executable_name (exe : FsPath) : Bool :=
  let name := ((FsPath.fileName exe).getD "").data.map Char.toLower
  if !("python".data.isPrefixOf name) then false
  else unix_exe_is_match name

/-- executable.rs find_executables (unix branch), instrumented: the second
component counts fs::read_dir invocations (directory enumerations).
Descends into a bin subdirectory when it exists, and enumerates only when
the canonical python/python3 exists there or the (possibly descended)
directory ends with the bin component. -/
def find_executables (fs : FS) (env_path : FsPath) : List FsPath × Nat :=
  if FsPath.endsWith env_path [".pyenv", "shims"] || FsPath.endsWith env_path [".DS_Store"] then
    ([], 0)
  else
    let bin := "bin"
    let env_path1 := if pathExists fs (env_path ++ [bin]) then env_path ++ [bin] else env_path
    let python_exe := "python"
    let python3_exe := "python3"
    if pathExists fs (env_path1 ++ [python_exe]) || pathExists fs (env_path1 ++ [python3_exe])
        || FsPath.endsWith env_path1 [bin] then
      match fs.readDir env_path1 with
      | some entries =>
        (((entries.map fun d => env_path1 ++ [d.name]).filter fun f =>
            is_python_executable_name f), 1)
      | none => ([], 1)
    else
      ([], 0)

/-- executable.rs find_executable (unix branch): probe the four candidate
locations in order and return the first whose metadata call succeeds. -/
def find_executable (fs : FS) (env_path : FsPath) : Option FsPath :=
  [env_path ++ ["bin", "python"],
   env_path ++ ["bin", "python3"],
   env_path ++ ["python"],
   env_path ++ ["python3"]].find? fun path => pathExists fs path

/-- executable.rs should_search_for_environments_in_path: the ignore list
for recursive descent. -/
def should_search_for_environments_in_path (path : FsPath) : Bool :=
  let folders_to_ignore := [
    "node_modules", ".git", ".tox", ".nox", ".hypothesis", ".ipynb_checkpoints",
    ".eggs", ".coverage", ".cache", ".pyre", ".ptype", ".pytest_cache",
    "__pycache__", "__pypackages__", ".mypy_cache", "cython_debug",
    "env.bak", "venv.bak", "Scripts", "bin"]
  !(folders_to_ignore.any fun folder => FsPath.endsWith path [folder])

/-! ## Data model (pet-core; the crate is an external collaborator, its types
are reconstructed from their uses in the sources under verification and from
the spec's data-model section) -/

/-- Environment categories (pet-core PythonEnvironmentCategory; the exact
constructor set lives outside the verified sources, a representative subset
suffices for every claim). -/
inductive PythonEnvironmentCategory where
  | system | conda | poetry | venv | pipenv | virtualEnv | unknown
deriving DecidableEq

/-- pet-core EnvManagerType (tool kind of a manager). -/
inductive EnvManagerType where
  | conda | poetry | pyenv
deriving DecidableEq

/-- pet-core EnvManager. -/
structure EnvManager where
  executable : FsPath
  version : Option String
  tool : EnvManagerType
deriving DecidableEq

/-- pet-core PythonEnvironment.  The Rust field `prefix` is renamed
`prefixDir` (`prefix` is a Lean keyword); `times` (a HashMap in Rust) is an
association list from symlink path to recorded timestamps. -/
structure PythonEnvironment where
  category : PythonEnvironmentCategory
  executable : Option FsPath
  prefixDir : Option FsPath
  version : Option String
  manager : Option EnvManager
  symlinks : Option (List FsPath)
  times : Option (List (FsPath × MTimeCTime))
  project : Option FsPath
deriving DecidableEq

/-- pet-python-utils PythonEnv (the probe handed to locators),
built with PythonEnv::new(executable, prefix, version). -/
structure PythonEnv where
  executable : FsPath
  prefixDir : Option FsPath
  version : Option String
deriving DecidableEq

/-- pet-core LocatorResult. -/
structure LocatorResult where
  managers : List EnvManager
  environments : List PythonEnvironment
deriving DecidableEq

/-- pet-core Configuration (the fields the verified sources read). -/
structure Configuration where
  search_paths : Option (List FsPath)
  environment_paths : Option (List FsPath)
  poetry_executable : Option FsPath
deriving DecidableEq

/-- A locator handle as the engine sees it (pet-core trait Locator):
its declared categories and its try_from behaviour.  Locator
implementations are external collaborators, so both are abstract
functions.  The trait method Rust names `from` is rendered `tryFrom`
(`from` is a Lean keyword; the spec calls it try_from). -/
structure Locator where
  supported_categories : List PythonEnvironmentCategory
  tryFrom : PythonEnv → Option PythonEnvironment

/-- An event pushed through the reporter callback. -/
inductive ReportEvent where
  | manager (m : EnvManager)
  | environment (e : PythonEnvironment)
deriving DecidableEq

/-! ## pet-cache/src/lib.rs -/

/-- Modelled from the spec: `get_environment_key` lives in the external
pet-core crate (not under the verified sources); per the spec's data model
the cache file is "named by a stable hash of its identity key (its
executable/prefix path)", so the key is the executable path when present,
else the prefix path. -/
def get_environment_key (env : PythonEnvironment) : Option FsPath :=
  match env.executable with
  | some exe => some exe
  | none => env.prefixDir

/-- The effect oracles Cache::store consults besides the filesystem:
the hash of the identity key (hash.rs delegates to std's DefaultHasher,
which is outside the verified sources), serde serialization success, and
fs::write success. -/
structure CacheWorld where
  fs : FS
  hash : FsPath → String
  serOk : PythonEnvironment → Bool
  writeOk : String → Bool

/-- The cache state: the dirty flag, the in-memory mirror, and the cache
directory's files (file name, deserializable content).  Only store ever
writes these files, so every file holds a structured record. -/
structure CacheState where
  cache_is_dirty : Bool
  environments : List PythonEnvironment
  disk : List (String × PythonEnvironment)
deriving DecidableEq

/-- Cache::new on a directory currently holding the given files: the
dirty flag starts true and the mirror empty. -/
def Cache.new (disk : List (String × PythonEnvironment)) : CacheState :=
  { cache_is_dirty := true, environments := [], disk := disk }

/-- fs::write: create or overwrite the named file. -/
def diskWrite (disk : List (String × PythonEnvironment)) (file : String)
    (env : PythonEnvironment) : List (String × PythonEnvironment) :=
  if disk.any fun e => e.1 == file then
    disk.map fun e => if e.1 == file then (file, env) else e
  else
    disk ++ [(file, env)]

/-- lib.rs update_mtimes_ctimes: recompute the live timestamps of every
symlinked executable; replace the recorded map only when at least one
lookup succeeded. -/
def update_mtimes_ctimes (fs : FS) (env : PythonEnvironment) : PythonEnvironment :=
  match env.symlinks with
  | none => env
  | some symlinks =>
    let times := symlinks.filterMap fun executable =>
      (get_mtime_ctime fs executable).map fun t => (executable, t)
    if times.isEmpty then env else { env with times := some times }

/-- Cache::store: push onto the in-memory mirror unconditionally; when an
identity key is derivable, re-record timestamps, serialize and write the
identity-keyed file, and mark dirty only after a successful write. -/
def Cache.store (w : CacheWorld) (s : CacheState) (environment : PythonEnvironment) :
    CacheState :=
  let s := { s with environments := s.environments ++ [environment] }
  match get_environment_key environment with
  | none => s
  | some key =>
    let cache_file := w.hash key ++ ".json"
    let environment2 := update_mtimes_ctimes w.fs environment
    if w.serOk environment2 then
      if w.writeOk cache_file then
        { s with disk := diskWrite s.disk cache_file environment2,
                 cache_is_dirty := true }
      else s
    else s

/-- Cache::get_all_environments: the mirror when clean; when dirty, re-read
every cache file, replace the mirror and clear the flag. -/
def Cache.get_all_environments (s : CacheState) : CacheState × List PythonEnvironment :=
  if !s.cache_is_dirty then
    (s, s.environments)
  else
    let environments := s.disk.map fun e => e.2
    ({ s with environments := environments, cache_is_dirty := false }, environments)

/-! ## Ordering of paths (Rust Ord on PathBuf: lexicographic over components,
components compared byte-wise) -/

/-- Ordering of one character by code point (byte order on the model's
component strings). -/
def chCmp (a b : Char) : Ordering := compare a.toNat b.toNat

/-- Lexicographic ordering of lists from an element ordering (Rust Ord for
sequences: element-wise, shorter prefix first). -/
def listCmp (cmp : α → α → Ordering) : List α → List α → Ordering
  | [], [] => .eq
  | [], _ :: _ => .lt
  | _ :: _, [] => .gt
  | a :: as, b :: bs =>
    match cmp a b with
    | .eq => listCmp cmp as bs
    | o => o

/-- Ordering of path components (strings), character-wise. -/
def strCmp (a b : String) : Ordering := listCmp chCmp a.data b.data

/-- Ordering of paths, component-wise. -/
def pathCmp (a b : FsPath) : Ordering := listCmp strCmp a b

/-- Boolean less-or-equal on paths. -/
def pathLe (a b : FsPath) : Bool := pathCmp a b ≠ Ordering.gt

/-- The path order as a Prop-valued relation. -/
def pathLeP (a b : FsPath) : Prop := pathLe a b = true

instance : DecidableRel pathLeP := fun a b => by
  unfold pathLeP
  infer_instance

/-- Vec::dedup: remove consecutive equal elements. -/
def dedupAdj [DecidableEq α] : List α → List α
  | [] => []
  | [a] => [a]
  | a :: b :: rest =>
    if a = b then dedupAdj (b :: rest) else a :: dedupAdj (b :: rest)

/-! ## pet-global-virtualenvs/src/lib.rs -/

/-- The external collaborators of pet-global-virtualenvs: pet-fs's
norm_case and pet-conda's is_conda_env are outside the verified sources. -/
structure GlobalVenvWorld where
  fs : FS
  norm_case : FsPath → FsPath
  is_conda_env : FsPath → Bool

/-- lib.rs get_global_virtualenv_dirs (platform fixed to Linux: the
cfg!(target_os = "linux") branch is included, and it probes the relative
paths "Envs"/"envs" exactly as written in the source).  The WORKON_HOME
environment-variable value is modelled as the path it denotes. -/
def get_global_virtualenv_dirs (w : GlobalVenvWorld)
    (work_on_home_env_var : Option FsPath) (user_home : Option FsPath) :
    List FsPath :=
  let venv_dirs : List FsPath := []
  let venv_dirs := match work_on_home_env_var with
    | some work_on_home =>
      let work_on_home := w.norm_case work_on_home
      if pathExists w.fs work_on_home then venv_dirs ++ [work_on_home] else venv_dirs
    | none => venv_dirs
  match user_home with
  | none => venv_dirs
  | some home =>
    let rel_dirs : List (List String) :=
      [["envs"], [".direnv"], [".venvs"], [".virtualenvs"],
       [".local", "share", "virtualenvs"]]
    let venv_dirs := venv_dirs ++ rel_dirs.filterMap fun dir =>
      let venv_dir := home ++ dir
      if pathExists w.fs venv_dir then some venv_dir else none
    let venv_dirs := if pathExists w.fs ["Envs"] then venv_dirs ++ [["Envs"]] else venv_dirs
    let venv_dirs := if pathExists w.fs ["envs"] then venv_dirs ++ [["envs"]] else venv_dirs
    venv_dirs

/-- lib.rs list_global_virtual_envs_paths: collect every entry of every
global virtual-env directory that is not a conda environment, then sort
and remove adjacent duplicates.  (Vec::sort is a stable sort by PathBuf's
Ord; it is modelled by a stable structural insertion sort over the same
lexicographic path order — stable sorts of a total preorder produce
identical output.) -/
def list_global_virtual_envs_paths (w : GlobalVenvWorld)
    (work_on_home_env_var : Option FsPath) (user_home : Option FsPath) :
    List FsPath :=
  let python_envs :=
    (get_global_virtualenv_dirs w work_on_home_env_var user_home).flatMap
      fun root_dir =>
        match w.fs.readDir root_dir with
        | some dirs =>
          (dirs.map fun e => root_dir ++ [e.name]).filter fun p => !w.is_conda_env p
        | none => []
  dedupAdj (List.insertionSort pathLeP python_envs)

/-! ## pet-poetry -/

/-- pet-poetry/src/manager.rs PoetryManager. -/
structure PoetryManager where
  executable : FsPath
deriving DecidableEq

/-- manager.rs PoetryManager::to_manager. -/
def PoetryManager.to_manager (m : PoetryManager) : EnvManager :=
  { executable := m.executable, version := none, tool := EnvManagerType.poetry }

/-- The effect oracles of the Poetry locator: Path::is_file, the external
`poetry env list --full-path` subprocess (per project directory; None
models a failed invocation), the filesystem, and pet-python-utils'
version::from_creator_for_virtual_env (outside the verified sources). -/
structure PoetryWorld where
  fs : FS
  is_file : FsPath → Bool
  env_list : FsPath → FsPath → Option (List FsPath)
  version_lookup : FsPath → Option String

/-- manager.rs PoetryManager::find: the executable must be given and be a
file. -/
def PoetryManager.find (w : PoetryWorld) (executable : Option FsPath) :
    Option PoetryManager :=
  match executable with
  | some executable => if w.is_file executable then some { executable := executable } else none
  | none => none

/-- environment_locations.rs get_environments_for_folders: one external
poetry invocation per project directory; failures contribute nothing.
(The Rust HashMap is an association list in insertion order here.) -/
def get_environments_for_folders (w : PoetryWorld) (executable : FsPath)
    (project_dirs : List FsPath) : List (FsPath × List FsPath) :=
  project_dirs.filterMap fun project_dir =>
    (w.env_list executable project_dir).map fun envs => (project_dir, envs)

/-- lib.rs create_poetry_env: require an existing prefix with at least one
python executable; build the Poetry environment record. -/
def create_poetry_env (w : PoetryWorld) (prefix_ : FsPath) (project_dir : FsPath)
    (manager : PoetryManager) : Option PythonEnvironment :=
  if !pathExists w.fs prefix_ then none
  else
    match (find_executables w.fs prefix_).1 with
    | [] => none
    | e :: rest =>
      some {
        category := PythonEnvironmentCategory.poetry
        executable := some e
        prefixDir := some prefix_
        version := w.version_lookup prefix_
        manager := some manager.to_manager
        symlinks := some (e :: rest)
        project := some project_dir
        times := none }

/-- The mutable state of the Poetry locator (lib.rs struct Poetry). -/
structure PoetryState where
  project_dirs : List FsPath
  poetry_executable : Option FsPath
  searched : Bool
  environments : List PythonEnvironment
  manager : Option PoetryManager
deriving DecidableEq

/-- The un-memoized tail of Poetry::find_with_cache: find the manager, run
the external listing for every project directory, rebuild the environment
memo, and set the searched flag. -/
def Poetry.runSearch (w : PoetryWorld) (s : PoetryState) :
    PoetryState × Option LocatorResult × Nat :=
  match PoetryManager.find w s.poetry_executable with
  | some manager =>
    let s1 := { s with manager := some manager }
    let result := get_environments_for_folders w manager.executable s1.project_dirs
    let envs := result.flatMap fun pe =>
      pe.2.filterMap fun env => create_poetry_env w env pe.1 manager
    ({ s1 with environments := envs, searched := true },
     some { managers := [manager.to_manager], environments := envs },
     s1.project_dirs.length)
  | none =>
    ({ s with searched := true }, none, 0)

/-- lib.rs Poetry::find_with_cache, instrumented: besides the new state and
the result, the last component counts invocations of the external
`poetry env list` command.  The memoized answer is returned exactly when
the environment memo is non-empty and a manager was recorded; otherwise a
set searched flag answers None without searching again. -/
def Poetry.find_with_cache (w : PoetryWorld) (s : PoetryState) :
    PoetryState × Option LocatorResult × Nat :=
  match s.manager with
  | some manager =>
    if !s.environments.isEmpty then
      (s, some { managers := [manager.to_manager], environments := s.environments }, 0)
    else if s.searched then (s, none, 0)
    else Poetry.runSearch w s
  | none =>
    if s.searched then (s, none, 0)
    else Poetry.runSearch w s

/-- lib.rs Poetry's Locator::configure: replace the project directories
only when a non-empty search-path list is supplied; replace the poetry
executable when supplied. -/
def Poetry.configure (s : PoetryState) (config : Configuration) : PoetryState :=
  let s := match config.search_paths with
    | some search_paths =>
      if !search_paths.isEmpty then { s with project_dirs := search_paths } else s
    | none => s
  match config.poetry_executable with
  | some exe => { s with poetry_executable := some exe }
  | none => s

/-- lib.rs Poetry's Locator::from (try_from), instrumented like
find_with_cache: the first discovered environment whose symlinks contain
the probe's executable. -/
def Poetry.tryFrom (w : PoetryWorld) (s : PoetryState) (env : PythonEnv) :
    PoetryState × Option PythonEnvironment × Nat :=
  match Poetry.find_with_cache w s with
  | (s1, some result, n) =>
    (s1,
     result.environments.find? fun found_env =>
       match found_env.symlinks with
       | some symlinks => symlinks.contains env.executable
       | none => false,
     n)
  | (s1, none, n) => (s1, none, n)

/-- lib.rs Poetry's Locator::find, instrumented: report each discovered
environment's manager (when present) followed by the environment. -/
def Poetry.findReport (w : PoetryWorld) (s : PoetryState) :
    PoetryState × List ReportEvent × Nat :=
  match Poetry.find_with_cache w s with
  | (s1, some result, n) =>
    (s1,
     result.environments.flatMap fun found_env =>
       (match found_env.manager with
        | some m => [ReportEvent.manager m]
        | none => []) ++ [ReportEvent.environment found_env],
     n)
  | (s1, none, n) => (s1, [], n)

/-! ## pet/src/find.rs -/

/-- One step of the batching fold in
find_python_environments_in_workspace_folders_recursive: append to the
last batch while it holds fewer than 20 items, else start a new batch. -/
def batch_step : List (List α) → α → List (List α)
  | [], a => [[a]]
  | [last_item], a =>
    if last_item.isEmpty || last_item.length < 20 then [last_item ++ [a]]
    else [last_item, [a]]
  | b :: rest, a => b :: batch_step rest a

/-- The whole batching fold (reader.fold(vec![], ...)): partition a list
into successive batches of at most 20. -/
def batch (xs : List α) : List (List α) := xs.foldl batch_step []

/-- The executable-extraction half of
find_python_environments_in_paths_with_locators: workspace mode probes
each root with find_executable, directory mode scans with
find_executables.  (The macOS-only /usr/bin/python2 filter is a no-op on
the fixed Linux platform.) -/
def find_python_environments_in_paths_extract (fs : FS) (paths : List FsPath)
    (is_workspace_folder : Bool) : List FsPath :=
  if is_workspace_folder then
    paths.flatMap fun p => (find_executable fs p).toList
  else
    paths.flatMap fun p => (find_executables fs p).1

/-- The three side-effect traces of one workspace-recursion call tree:
the directories handed to workspace-mode extraction (probed), the
directories passed to fs::read_dir by the recursion itself (enumerated),
and the candidate executables funneled to identification. -/
structure ScanOut where
  probed : List FsPath
  enumerated : List FsPath
  candidates : List FsPath
deriving DecidableEq

/-- The body of find_python_environments_in_workspace_folders_recursive,
structurally recursive on the remaining depth budget
fuel = max_depth - depth (the source's guard depth >= max_depth is
fuel = 0, and its recursion at depth + 1 is fuel - 1; the source's
behaviour depends on depth and max_depth only through this difference).
At each level: extract executables from the supplied roots in workspace
mode; when budget remains, for every root without a bin subdirectory,
enumerate it, keep non-ignored subdirectories, and recurse on batches of
at most 20. -/
def workspace_scan_go (fs : FS) : Nat → List FsPath → ScanOut
  | 0, paths =>
    { probed := paths, enumerated := [],
      candidates := find_python_environments_in_paths_extract fs paths true }
  | fuel + 1, paths =>
    let candidates := find_python_environments_in_paths_extract fs paths true
    let paths2 := paths.filter fun p => !(pathExists fs (p ++ ["bin"]))
    let subResults := paths2.map fun path =>
      match fs.readDir path with
      | none => ({ probed := [], enumerated := [path], candidates := [] } : ScanOut)
      | some reader =>
        let subdirs := ((reader.filter fun d => d.is_dir == some true).map
            fun d => path ++ [d.name]).filter
              fun p => should_search_for_environments_in_path p
        let rec_results := (batch subdirs).map fun entry =>
          workspace_scan_go fs fuel entry
        { probed := rec_results.flatMap ScanOut.probed,
          enumerated := path :: rec_results.flatMap ScanOut.enumerated,
          candidates := rec_results.flatMap ScanOut.candidates }
    { probed := paths ++ subResults.flatMap ScanOut.probed,
      enumerated := subResults.flatMap ScanOut.enumerated,
      candidates := candidates ++ subResults.flatMap ScanOut.candidates }

/-- find_python_environments_in_workspace_folders_recursive with the
source's (depth, max_depth) signature. -/
def workspace_scan (fs : FS) (paths : List FsPath) (depth max_depth : Nat) : ScanOut :=
  workspace_scan_go fs (max_depth - depth) paths

/-- The workspace-scan entry point of find_and_report_envs: the supplied
search paths at depth 0 with the default depth limit 1. -/
def find_envs_in_workspace_folders (fs : FS) (search_paths : List FsPath) : ScanOut :=
  workspace_scan fs search_paths 0 1

/-- The locator index built at the top of report_validated_environments:
HashMap insertion over locators and their categories, so the last
registered locator supporting a category wins. -/
def build_locator_map (locators : List Locator)
    (category : PythonEnvironmentCategory) : Option Locator :=
  (locators.filter fun l => l.supported_categories.contains category).getLast?

/-- The staleness loop of report_validated_environments: some recorded
fingerprint whose executable's live lookup succeeds disagrees in mtime or
ctime.  (The source returns at the first mismatch it meets; abandonment is
therefore exactly "some entry mismatches", independent of iteration
order.) -/
def timesMismatch (fs : FS) (env : PythonEnvironment) : Bool :=
  match env.times with
  | none => false
  | some times =>
    times.any fun ec =>
      match get_mtime_ctime fs ec.1 with
      | some new_times => ec.2.mtime != new_times.mtime || ec.2.ctime != new_times.ctime
      | none => false

/-- The per-environment validation task spawned by
report_validated_environments, instrumented: the result is the report to
emit for this entry (manager of the re-identified environment, then the
environment; none = withheld), and the count of locator try_from calls. -/
def validate_cached_env (fs : FS) (locator_map : PythonEnvironmentCategory → Option Locator)
    (env : PythonEnvironment) : Option (Option EnvManager × PythonEnvironment) × Nat :=
  match env.executable with
  | none => (none, 0)
  | some executable =>
    let python_env : PythonEnv :=
      { executable := executable, prefixDir := env.prefixDir, version := env.version }
    match locator_map env.category with
    | none => (none, 0)
    | some locator =>
      if timesMismatch fs env then (none, 0)
      else
        match locator.tryFrom python_env with
        | some env1 => (some (env1.manager, env1), 1)
        | none => (none, 1)

/-- find.rs report_validated_environments (Phase A): read all cached
environments (the only cache access of the phase), validate each entry
with a resolvable executable, and emit manager-then-environment for every
validated one.  Returns the cache state after the read together with the
emitted events. -/
def report_validated_environments (fs : FS) (locators : List Locator)
    (s : CacheState) : CacheState × List ReportEvent :=
  let res := Cache.get_all_environments s
  let reports := res.2.flatMap fun env =>
    match (validate_cached_env fs (build_locator_map locators) env).1 with
    | none => []
    | some (mgr, env1) =>
      (match mgr with
       | some m => [ReportEvent.manager m]
       | none => []) ++ [ReportEvent.environment env1]
  (res.1, reports)

/-! ## Helper lemmas -/

/-- Whether Cache::store's disk write happens and succeeds: an identity key
is derivable, serialization succeeds, and fs::write succeeds. -/
def store_wrote (w : CacheWorld) (env : PythonEnvironment) : Bool :=
  match get_environment_key env with
  | none => false
  | some key =>
    w.serOk (update_mtimes_ctimes w.fs env) && w.writeOk (w.hash key ++ ".json")

theorem diskWrite_mem_values (disk : List (String × PythonEnvironment))
    (file : String) (env : PythonEnvironment) :
    env ∈ (diskWrite disk file env).map fun e => e.2 := by
  unfold diskWrite
  by_cases h : disk.any fun e => e.1 == file
  · simp only [h, if_true]
    rcases List.any_eq_true.mp h with ⟨e, he, hef⟩
    refine List.mem_map.mpr ⟨(file, env), List.mem_map.mpr ⟨e, he, ?_⟩, rfl⟩
    simp only [beq_iff_eq] at hef
    simp [hef]
  · simp [h]

theorem store_environments_eq (w : CacheWorld) (s : CacheState)
    (env : PythonEnvironment) :
    (Cache.store w s env).environments = s.environments ++ [env] := by
  unfold Cache.store
  cases get_environment_key env with
  | none => rfl
  | some key =>
    by_cases hs : w.serOk (update_mtimes_ctimes w.fs env) = true
    · by_cases hw : w.writeOk (w.hash key ++ ".json") = true <;> simp [hs, hw]
    · simp [hs]

theorem store_dirty_eq (w : CacheWorld) (s : CacheState) (env : PythonEnvironment) :
    (Cache.store w s env).cache_is_dirty
      = (s.cache_is_dirty || store_wrote w env) := by
  unfold Cache.store store_wrote
  cases get_environment_key env with
  | none => simp
  | some key =>
    by_cases hs : w.serOk (update_mtimes_ctimes w.fs env) = true
    · by_cases hw : w.writeOk (w.hash key ++ ".json") = true <;> simp [hs, hw]
    · simp [hs]

theorem store_disk_of_not_wrote (w : CacheWorld) (s : CacheState)
    (env : PythonEnvironment) (h : store_wrote w env = false) :
    (Cache.store w s env).disk = s.disk := by
  unfold Cache.store
  unfold store_wrote at h
  cases hk : get_environment_key env with
  | none => rfl
  | some key =>
    rw [hk] at h
    simp only [Bool.and_eq_false_iff] at h
    by_cases hs : w.serOk (update_mtimes_ctimes w.fs env) = true
    · have hw : w.writeOk (w.hash key ++ ".json") = false := by
        rcases h with h | h
        · exact absurd hs (by simp [h])
        · exact h
      simp [hs, hw]
    · simp [hs]

theorem cache_store_mirror_append_and_dirty_only_on_write
    (w : CacheWorld) (s : CacheState) (env : PythonEnvironment) :
    (Cache.store w s env).environments = s.environments ++ [env]
    ∧ (Cache.store w s env).cache_is_dirty = (s.cache_is_dirty || store_wrote w env)
    ∧ (store_wrote w env = false → (Cache.store w s env).disk = s.disk) :=
  ⟨store_environments_eq w s env, store_dirty_eq w s env,
   store_disk_of_not_wrote w s env⟩

/-! ## Concrete fixtures used by counterexamples and witnesses -/

/-- An empty filesystem: every metadata and read_dir call fails. -/
def fsEmpty : FS := { metadata := fun _ => none, readDir := fun _ => none }

/-- A cache world over the empty filesystem where serialization and disk
writes always succeed. -/
def w0 : CacheWorld :=
  { fs := fsEmpty, hash := fun _ => "h", serOk := fun _ => true,
    writeOk := fun _ => true }

/-- An environment with no executable and no prefix: no identity key is
derivable for it. -/
def env0 : PythonEnvironment :=
  { category := PythonEnvironmentCategory.unknown, executable := none,
    prefixDir := none, version := none, manager := none, symlinks := none,
    times := none, project := none }

/-- A virtual environment with an executable (hence a derivable identity
key) and no recorded symlinks. -/
def env1 : PythonEnvironment :=
  { category := PythonEnvironmentCategory.venv,
    executable := some ["opt", "venv", "bin", "python"],
    prefixDir := some ["opt", "venv"], version := none, manager := none,
    symlinks := none, times := none, project := none }

/-- C1 counterexample: on a freshly created cache (dirty flag set, empty
cache directory), storing an environment with no derivable identity key
and then reading all environments returns a collection that does NOT
contain it — the dirty re-read rebuilds the mirror from the (empty) disk. -/
theorem cache_store_roundtrip_counterexample :
    env0 ∉ (Cache.get_all_environments (Cache.store w0 (Cache.new []) env0)).2 := by
  decide

/-- C1 (amended): Cache round-trip holds when the store's disk write
happens and succeeds and re-recording timestamps leaves the environment
unchanged, or when no disk write happens and the cache was not dirty. -/
theorem cache_store_roundtrip_amended (w : CacheWorld) (s : CacheState)
    (env : PythonEnvironment)
    (h : (update_mtimes_ctimes w.fs env = env ∧ store_wrote w env = true)
       ∨ (s.cache_is_dirty = false ∧ store_wrote w env = false)) :
    env ∈ (Cache.get_all_environments (Cache.store w s env)).2 := by
  rcases h with ⟨hupd, hwrote⟩ | ⟨hdirty, hnw⟩
  · unfold store_wrote at hwrote
    cases hk : get_environment_key env with
    | none => rw [hk] at hwrote; exact absurd hwrote (by simp)
    | some key =>
      rw [hk] at hwrote
      rcases (Bool.and_eq_true _ _).mp hwrote with ⟨hs, hw⟩
      unfold Cache.store
      rw [hk]
      simp only [hs, hw, if_true]
      unfold Cache.get_all_environments
      simp only [Bool.not_true, Bool.false_eq_true, if_false]
      rw [hupd]
      exact diskWrite_mem_values s.disk (w.hash key ++ ".json") env
  · have henv := store_environments_eq w s env
    have hd := store_dirty_eq w s env
    rw [hdirty, hnw] at hd
    unfold Cache.get_all_environments
    rw [hd]
    simp [henv]

/-- C1 amended witness: a concrete successful round-trip through the
disk. -/
theorem cache_store_roundtrip_amended_witness :
    (update_mtimes_ctimes w0.fs env1 = env1 ∧ store_wrote w0 env1 = true)
    ∧ env1 ∈ (Cache.get_all_environments (Cache.store w0 (Cache.new []) env1)).2 :=
  ⟨⟨by decide, by decide⟩,
   cache_store_roundtrip_amended w0 (Cache.new []) env1
     (Or.inl ⟨by decide, by decide⟩)⟩

/-- C10 witness: a concrete store where no disk write happens (no identity
key) and the disk is untouched. -/
theorem cache_store_mirror_append_witness :
    store_wrote w0 env0 = false
    ∧ (Cache.store w0 (Cache.new []) env0).disk = (Cache.new []).disk :=
  ⟨by decide,
   (cache_store_mirror_append_and_dirty_only_on_write w0 (Cache.new []) env0).2.2
     (by decide)⟩

/-! ## C2: Phase A staleness -/

theorem timesMismatch_true_of_entry (fs : FS) (env : PythonEnvironment)
    (ts : List (FsPath × MTimeCTime)) (exe : FsPath) (cached live : MTimeCTime)
    (hts : env.times = some ts) (hmem : (exe, cached) ∈ ts)
    (hlive : get_mtime_ctime fs exe = some live)
    (hdiff : cached.mtime ≠ live.mtime ∨ cached.ctime ≠ live.ctime) :
    timesMismatch fs env = true := by
  unfold timesMismatch
  rw [hts]
  refine List.any_eq_true.mpr ⟨(exe, cached), hmem, ?_⟩
  simp only [hlive]
  rcases hdiff with h | h <;> simp [h]

theorem validate_abandons_of_mismatch (fs : FS)
    (locator_map : PythonEnvironmentCategory → Option Locator)
    (env : PythonEnvironment) (hmm : timesMismatch fs env = true) :
    validate_cached_env fs locator_map env = (none, 0) := by
  unfold validate_cached_env
  cases env.executable with
  | none => rfl
  | some executable =>
    cases locator_map env.category with
    | none => rfl
    | some locator => simp [hmm]

/-- C2: when a cached environment carries recorded fingerprints and any
symlinked executable's recomputed live mtime or ctime differs from the
recorded value, validation of that entry is abandoned: the per-entry task
emits no report and performs zero try_from calls, and Phase A's only
effect on the cache is the initial get_all_environments read — the on-disk
files are never changed and the resulting in-memory state is exactly the
post-read state, whatever the validation outcomes. -/
theorem phaseA_staleness_abandons_without_mutation (fs : FS)
    (locator_map : PythonEnvironmentCategory → Option Locator)
    (env : PythonEnvironment) (ts : List (FsPath × MTimeCTime))
    (exe : FsPath) (cached live : MTimeCTime)
    (hts : env.times = some ts) (hmem : (exe, cached) ∈ ts)
    (hlive : get_mtime_ctime fs exe = some live)
    (hdiff : cached.mtime ≠ live.mtime ∨ cached.ctime ≠ live.ctime) :
    validate_cached_env fs locator_map env = (none, 0)
    ∧ (∀ (locators : List Locator) (s : CacheState),
        (report_validated_environments fs locators s).1
          = (Cache.get_all_environments s).1
        ∧ (report_validated_environments fs locators s).1.disk = s.disk) := by
  constructor
  · exact validate_abandons_of_mismatch fs locator_map env
      (timesMismatch_true_of_entry fs env ts exe cached live hts hmem hlive hdiff)
  · intro locators s
    constructor
    · rfl
    · show (Cache.get_all_environments s).1.disk = s.disk
      unfold Cache.get_all_environments
      by_cases h : s.cache_is_dirty <;> simp [h]

/-- The canonical executable path of the fixture venv. -/
def exePath : FsPath := ["opt", "venv", "bin", "python"]

/-- A filesystem where the fixture executable exists with mtime 7 and
ctime 5. -/
def fsOne : FS :=
  { metadata := fun p =>
      if p = exePath then some { created := some 5, modified := some 7 } else none,
    readDir := fun _ => none }

/-- A cached environment whose recorded fingerprint (mtime 1) disagrees
with the live filesystem (mtime 7). -/
def env2 : PythonEnvironment :=
  { category := PythonEnvironmentCategory.venv, executable := some exePath,
    prefixDir := some ["opt", "venv"], version := none, manager := none,
    symlinks := some [exePath],
    times := some [(exePath, { mtime := 1, ctime := 5 })], project := none }

/-- A locator handle registered for the venv category that accepts every
probe. -/
def loc1 : Locator :=
  { supported_categories := [PythonEnvironmentCategory.venv],
    tryFrom := fun _ => some env1 }

/-- C2 witness: the fixture's stale entry is withheld with zero try_from
calls. -/
theorem phaseA_staleness_witness :
    validate_cached_env fsOne (build_locator_map [loc1]) env2 = (none, 0) :=
  (phaseA_staleness_abandons_without_mutation fsOne (build_locator_map [loc1])
      env2 [(exePath, { mtime := 1, ctime := 5 })] exePath
      { mtime := 1, ctime := 5 } { mtime := 7, ctime := 5 }
      rfl (by decide) (by decide) (Or.inl (by decide))).1

/-! ## C4: workspace-scan batching -/

/-- Invariant of the batching fold's accumulator: every batch holds
between 1 and 20 items, and every batch except the last holds exactly
20. -/
def BatchInv (f : List (List α)) : Prop :=
  (∀ b ∈ f.dropLast, b.length = 20) ∧ ∀ b ∈ f, 1 ≤ b.length ∧ b.length ≤ 20

theorem batch_step_ne_nil (f : List (List α)) (a : α) : batch_step f a ≠ [] := by
  match f with
  | [] => simp [batch_step]
  | [l] => unfold batch_step; split <;> simp
  | b :: c :: rest => simp [batch_step]

theorem batch_step_flatten (f : List (List α)) (a : α) :
    (batch_step f a).flatten = f.flatten ++ [a] := by
  induction f with
  | nil => simp [batch_step]
  | cons b rest ih =>
    cases rest with
    | nil => unfold batch_step; split <;> simp
    | cons c rest' =>
      show (b :: batch_step (c :: rest') a).flatten = _
      simp only [List.flatten_cons, ih, List.append_assoc]

theorem batch_inv_step (f : List (List α)) (a : α) (h : BatchInv f) :
    BatchInv (batch_step f a) := by
  induction f with
  | nil =>
    refine ⟨by simp [batch_step], ?_⟩
    intro b hb
    simp [batch_step] at hb
    simp [hb]
  | cons b rest ih =>
    cases rest with
    | nil =>
      unfold batch_step
      rcases h with ⟨-, hbd⟩
      have hb := hbd b (by simp)
      split
      · next hcond =>
        have hlt : b.length < 20 := by
          rcases Bool.or_eq_true _ _ |>.mp hcond with hc | hc
          · simp [List.isEmpty_iff] at hc; simp [hc]
          · exact of_decide_eq_true hc
        exact ⟨by simp, by intro x hx; simp at hx; subst hx; simp; omega⟩
      · next hcond =>
        have h20 : b.length = 20 := by
          simp only [Bool.or_eq_true, not_or, decide_eq_true_eq] at hcond
          omega
        refine ⟨?_, ?_⟩
        · intro x hx
          simp at hx
          rw [hx, h20]
        · intro x hx
          simp at hx
          rcases hx with hx | hx
          · subst hx; omega
          · subst hx; constructor <;> simp
    | cons c rest' =>
      rcases h with ⟨hfull, hbd⟩
      have hrest : BatchInv (c :: rest') := by
        constructor
        · intro x hx
          exact hfull x (by simp [List.dropLast_cons_of_ne_nil] at hx ⊢; tauto)
        · intro x hx
          exact hbd x (by simp [hx])
      have ihr := ih hrest
      show BatchInv (b :: batch_step (c :: rest') a)
      rcases ihr with ⟨ifull, ibd⟩
      constructor
      · intro x hx
        rw [List.dropLast_cons_of_ne_nil (batch_step_ne_nil _ _)] at hx
        rcases List.mem_cons.mp hx with hx | hx
        · subst hx
          exact hfull x (by simp [List.dropLast_cons_of_ne_nil])
        · exact ifull x hx
      · intro x hx
        rcases List.mem_cons.mp hx with hx | hx
        · subst hx
          exact hbd x (by simp)
        · exact ibd x hx

theorem batch_inv_count (f : List (List α)) (h : BatchInv f) :
    f.length = (f.flatten.length + 19) / 20 := by
  induction f with
  | nil => simp
  | cons b rest ih =>
    cases rest with
    | nil =>
      rcases h with ⟨-, hbd⟩
      have hb := hbd b (by simp)
      simp only [List.length_cons, List.length_nil, List.flatten_cons,
        List.flatten_nil, List.append_nil]
      omega
    | cons c rest' =>
      rcases h with ⟨hfull, hbd⟩
      have hb : b.length = 20 := hfull b (by simp [List.dropLast_cons_of_ne_nil])
      have hrest : BatchInv (c :: rest') := by
        constructor
        · intro x hx
          exact hfull x (by simp [List.dropLast_cons_of_ne_nil] at hx ⊢; tauto)
        · intro x hx
          exact hbd x (by simp [hx])
      have ihr := ih hrest
      simp only [List.length_cons, List.flatten_cons, List.length_append, hb, ihr]
      omega

theorem batch_foldl_inv (xs : List α) (f : List (List α)) (h : BatchInv f) :
    BatchInv (List.foldl batch_step f xs)
    ∧ (List.foldl batch_step f xs).flatten = f.flatten ++ xs := by
  induction xs generalizing f with
  | nil => simpa using h
  | cons a xs ih =>
    simp only [List.foldl_cons]
    have := ih (batch_step f a) (batch_inv_step f a h)
    refine ⟨this.1, ?_⟩
    rw [this.2, batch_step_flatten]
    simp

/-- C4: the batching fold of the workspace scan partitions any list of n
qualifying subdirectories into exactly ceil(n/20) batches of at most 20
items each, whose in-order concatenation is the input; 45 items give
exactly 3 batches. -/
theorem workspace_batching_partitions (xs : List FsPath) :
    (batch xs).length = (xs.length + 19) / 20
    ∧ (∀ b ∈ batch xs, b.length ≤ 20)
    ∧ (batch xs).flatten = xs
    ∧ (xs.length = 45 → (batch xs).length = 3) := by
  have h0 : BatchInv ([] : List (List FsPath)) := ⟨by simp, by simp⟩
  have hf := batch_foldl_inv xs [] h0
  have hflat : (batch xs).flatten = xs := by
    have := hf.2
    simpa [batch] using this
  have hcount : (batch xs).length = (xs.length + 19) / 20 := by
    have h2 := batch_inv_count (batch xs) (by simpa [batch] using hf.1)
    rw [hflat] at h2
    exact h2
  refine ⟨hcount, ?_, hflat, ?_⟩
  · intro b hb
    exact (hf.1.2 b (by simpa [batch] using hb)).2
  · intro h45
    rw [hcount, h45]

/-- C4 witness: 45 concrete subdirectories are split into exactly 3
batches. -/
theorem workspace_batching_partitions_witness :
    (List.replicate 45 (["d"] : FsPath)).length = 45
    ∧ (batch (List.replicate 45 (["d"] : FsPath))).length = 3 :=
  ⟨by decide,
   (workspace_batching_partitions (List.replicate 45 ["d"])).2.2.2 (by decide)⟩

/-! ## C7: workspace extraction mode -/

/-- A filesystem where only w/bin/python3 exists. -/
def fs3 : FS :=
  { metadata := fun p =>
      if p = ["w", "bin", "python3"] then some { created := none, modified := none }
      else none,
    readDir := fun _ => none }

/-- C7 counterexample: workspace-mode extraction probes more than the
single canonical bin/python location — on a root whose bin/python does not
exist but whose bin/python3 does, find_executable probes the latter and
returns it. -/
theorem workspace_probe_counterexample :
    find_executable fs3 ["w"] = some ["w", "bin", "python3"]
    ∧ pathExists fs3 (["w"] ++ ["bin", "python"]) = false := by
  constructor <;> decide

/-- C7 (amended): for every workspace root, executable extraction probes
exactly the four candidate locations bin/python, bin/python3, python and
python3 under that root, in that order, returning the first that exists:
any returned executable is one of the four and exists; bin/python wins
whenever it exists, bin/python3 whenever it exists and bin/python does
not, python whenever it exists and neither bin candidate does, and
python3 whenever only it exists; nothing is returned iff none of the four
exists; and every executable extracted for a list of workspace roots
arises this way from one of the roots. -/
theorem workspace_probe_candidates (fs : FS) (env_path : FsPath) :
    (∀ q, find_executable fs env_path = some q →
      q ∈ [env_path ++ ["bin", "python"], env_path ++ ["bin", "python3"],
           env_path ++ ["python"], env_path ++ ["python3"]]
      ∧ pathExists fs q = true)
    ∧ (pathExists fs (env_path ++ ["bin", "python"]) = true →
        find_executable fs env_path = some (env_path ++ ["bin", "python"]))
    ∧ (pathExists fs (env_path ++ ["bin", "python"]) = false →
        pathExists fs (env_path ++ ["bin", "python3"]) = true →
        find_executable fs env_path = some (env_path ++ ["bin", "python3"]))
    ∧ (pathExists fs (env_path ++ ["bin", "python"]) = false →
        pathExists fs (env_path ++ ["bin", "python3"]) = false →
        pathExists fs (env_path ++ ["python"]) = true →
        find_executable fs env_path = some (env_path ++ ["python"]))
    ∧ (pathExists fs (env_path ++ ["bin", "python"]) = false →
        pathExists fs (env_path ++ ["bin", "python3"]) = false →
        pathExists fs (env_path ++ ["python"]) = false →
        pathExists fs (env_path ++ ["python3"]) = true →
        find_executable fs env_path = some (env_path ++ ["python3"]))
    ∧ (find_executable fs env_path = none ↔
        ∀ q ∈ [env_path ++ ["bin", "python"], env_path ++ ["bin", "python3"],
               env_path ++ ["python"], env_path ++ ["python3"]],
          pathExists fs q = false)
    ∧ (∀ (paths : List FsPath) (e : FsPath),
        e ∈ find_python_environments_in_paths_extract fs paths true →
        ∃ p ∈ paths, find_executable fs p = some e) := by
  refine ⟨?_, ?_, ?_, ?_, ?_, ?_, ?_⟩
  · intro q hq
    exact ⟨List.mem_of_find?_eq_some hq, List.find?_some hq⟩
  · intro h
    unfold find_executable
    simp [List.find?, h]
  · intro h1 h2
    unfold find_executable
    simp [List.find?, h1, h2]
  · intro h1 h2 h3
    unfold find_executable
    simp [List.find?, h1, h2, h3]
  · intro h1 h2 h3 h4
    unfold find_executable
    simp [List.find?, h1, h2, h3, h4]
  · unfold find_executable
    constructor
    · intro h q hq
      have := List.find?_eq_none.mp h q hq
      simpa using this
    · intro h
      exact List.find?_eq_none.mpr fun q hq => by simp [h q hq]
  · intro paths e he
    unfold find_python_environments_in_paths_extract at he
    simp only [if_true] at he
    rcases List.mem_flatMap.mp he with ⟨p, hp, hep⟩
    refine ⟨p, hp, ?_⟩
    cases hfe : find_executable fs p with
    | none => rw [hfe] at hep; simp at hep
    | some q => rw [hfe] at hep; simp at hep; rw [hep]

/-- C7 witness: on the fixture filesystem where bin/python is absent and
bin/python3 exists, the probe returns bin/python3 (the first existing
candidate), and the returned executable is one of the four and exists. -/
theorem workspace_probe_candidates_witness :
    (find_executable fs3 ["w"] = some (["w"] ++ ["bin", "python3"]))
    ∧ ((["w", "bin", "python3"] : FsPath) ∈
        [["w"] ++ ["bin", "python"], ["w"] ++ ["bin", "python3"],
         ["w"] ++ ["python"], ["w"] ++ ["python3"]]
      ∧ pathExists fs3 ["w", "bin", "python3"] = true) :=
  ⟨(workspace_probe_candidates fs3 ["w"]).2.2.1 (by decide) (by decide),
   (workspace_probe_candidates fs3 ["w"]).1 ["w", "bin", "python3"] (by decide)⟩

/-! ## C3: directory-mode cost guard -/

/-- C3: find_executables enumerates (calls fs::read_dir) only if, after
descending into a bin subdirectory when one exists, the canonical python
or python3 name exists in that directory or the directory is itself named
bin; when that guard fails it performs zero directory reads and returns an
empty result. -/
theorem directory_mode_cost_guard (fs : FS) (env_path : FsPath) :
    (1 ≤ (find_executables fs env_path).2 →
      (pathExists fs
          ((if pathExists fs (env_path ++ ["bin"]) then env_path ++ ["bin"] else env_path)
            ++ ["python"])
        || pathExists fs
          ((if pathExists fs (env_path ++ ["bin"]) then env_path ++ ["bin"] else env_path)
            ++ ["python3"])
        || FsPath.endsWith
          (if pathExists fs (env_path ++ ["bin"]) then env_path ++ ["bin"] else env_path)
          ["bin"]) = true)
    ∧ ((pathExists fs
          ((if pathExists fs (env_path ++ ["bin"]) then env_path ++ ["bin"] else env_path)
            ++ ["python"])
        || pathExists fs
          ((if pathExists fs (env_path ++ ["bin"]) then env_path ++ ["bin"] else env_path)
            ++ ["python3"])
        || FsPath.endsWith
          (if pathExists fs (env_path ++ ["bin"]) then env_path ++ ["bin"] else env_path)
          ["bin"]) = false →
        (find_executables fs env_path).2 = 0 ∧ (find_executables fs env_path).1 = []) := by
  unfold find_executables
  by_cases hsh :
      (FsPath.endsWith env_path [".pyenv", "shims"] || FsPath.endsWith env_path [".DS_Store"]) = true
  · simp [hsh]
  · rw [Bool.not_eq_true] at hsh
    simp only [hsh, Bool.false_eq_true, if_false]
    by_cases hg :
        (pathExists fs
            ((if pathExists fs (env_path ++ ["bin"]) then env_path ++ ["bin"] else env_path)
              ++ ["python"])
          || pathExists fs
            ((if pathExists fs (env_path ++ ["bin"]) then env_path ++ ["bin"] else env_path)
              ++ ["python3"])
          || FsPath.endsWith
            (if pathExists fs (env_path ++ ["bin"]) then env_path ++ ["bin"] else env_path)
            ["bin"]) = true
    · simp only [hg, if_true]
      cases fs.readDir
          (if pathExists fs (env_path ++ ["bin"]) then env_path ++ ["bin"] else env_path) with
      | none => simp
      | some entries => simp
    · rw [Bool.not_eq_true] at hg
      simp [hg]

/-- C3 witness: a directory with no bin subdirectory, no python/python3
entry and not itself named bin is never enumerated. -/
theorem directory_mode_cost_guard_witness :
    (find_executables fsEmpty ["home", "proj"]).2 = 0
    ∧ (find_executables fsEmpty ["home", "proj"]).1 = [] :=
  (directory_mode_cost_guard fsEmpty ["home", "proj"]).2 (by decide)

/-! ## C5/C6: workspace-scan shape lemmas -/

theorem batch_flatten (xs : List α) : (batch xs).flatten = xs := by
  have h0 : BatchInv ([] : List (List α)) := ⟨by simp, by simp⟩
  simpa [batch] using (batch_foldl_inv xs [] h0).2

theorem mem_of_mem_batch {xs : List α} {entry : List α} (he : entry ∈ batch xs)
    {a : α} (ha : a ∈ entry) : a ∈ xs := by
  rw [← batch_flatten xs]
  exact List.mem_flatten.mpr ⟨entry, he, ha⟩

/-- The source's defining equation of
find_python_environments_in_workspace_folders_recursive holds of the
fuel-indexed embedding: stop at the depth limit, otherwise extract, read
each bin-free root, batch its qualifying subdirectories and recurse at
depth + 1. -/
theorem workspace_scan_step (fs : FS) (paths : List FsPath) (depth max_depth : Nat) :
    workspace_scan fs paths depth max_depth =
      if max_depth ≤ depth then
        { probed := paths, enumerated := [],
          candidates := find_python_environments_in_paths_extract fs paths true }
      else
        let candidates := find_python_environments_in_paths_extract fs paths true
        let paths2 := paths.filter fun p => !(pathExists fs (p ++ ["bin"]))
        let subResults := paths2.map fun path =>
          match fs.readDir path with
          | none => ({ probed := [], enumerated := [path], candidates := [] } : ScanOut)
          | some reader =>
            let subdirs := ((reader.filter fun d => d.is_dir == some true).map
                fun d => path ++ [d.name]).filter
                  fun p => should_search_for_environments_in_path p
            let rec_results := (batch subdirs).map fun entry =>
              workspace_scan fs entry (depth + 1) max_depth
            { probed := rec_results.flatMap ScanOut.probed,
              enumerated := path :: rec_results.flatMap ScanOut.enumerated,
              candidates := rec_results.flatMap ScanOut.candidates }
        { probed := paths ++ subResults.flatMap ScanOut.probed,
          enumerated := subResults.flatMap ScanOut.enumerated,
          candidates := candidates ++ subResults.flatMap ScanOut.candidates } := by
  unfold workspace_scan
  by_cases h : max_depth ≤ depth
  · have h0 : max_depth - depth = 0 := by omega
    rw [h0]
    simp [h, workspace_scan_go]
  · have hfe : max_depth - depth = (max_depth - (depth + 1)) + 1 := by omega
    rw [hfe]
    simp [h, workspace_scan_go]

theorem scan_probed_mem (fs : FS) :
    ∀ (fuel : Nat) (paths : List FsPath) (d : FsPath),
      d ∈ (workspace_scan_go fs fuel paths).probed →
      d ∈ paths
      ∨ (should_search_for_environments_in_path d = true
         ∧ ∃ r ∈ paths, ∃ s : List String,
             d = r ++ s ∧ 1 ≤ s.length ∧ s.length ≤ fuel) := by
  intro fuel
  induction fuel with
  | zero =>
    intro paths d hd
    exact Or.inl (by simpa [workspace_scan_go] using hd)
  | succ fuel ih =>
    intro paths d hd
    simp only [workspace_scan_go] at hd
    rw [List.mem_append] at hd
    rcases hd with hd | hd
    · exact Or.inl hd
    · rcases List.mem_flatMap.mp hd with ⟨out, hout, hdout⟩
      rcases List.mem_map.mp hout with ⟨path, hpath, rfl⟩
      have hpaths : path ∈ paths := (List.mem_filter.mp hpath).1
      cases hrd : fs.readDir path with
      | none => rw [hrd] at hdout; simp at hdout
      | some reader =>
        rw [hrd] at hdout
        simp only [List.mem_flatMap, List.mem_map] at hdout
        rcases hdout with ⟨ro, ⟨entry, hentry, rfl⟩, hdro⟩
        rcases ih entry d hdro with hin | ⟨hss, r, hr, s, hds, hs1, hs2⟩
        · have hsub := mem_of_mem_batch hentry hin
          rcases List.mem_filter.mp hsub with ⟨hmap, hssd⟩
          rcases List.mem_map.mp hmap with ⟨de, hde, rfl⟩
          refine Or.inr ⟨hssd, path, hpaths, [de.name], rfl, by simp, by simp⟩
        · have hsub := mem_of_mem_batch hentry hr
          rcases List.mem_filter.mp hsub with ⟨hmap, hssr⟩
          rcases List.mem_map.mp hmap with ⟨de, hde, rfl⟩
          refine Or.inr ⟨hss, path, hpaths, [de.name] ++ s, ?_, by simp, ?_⟩
          · rw [hds, List.append_assoc]
          · simp only [List.length_append, List.length_cons, List.length_nil]
            omega

theorem scan_enumerated_mem (fs : FS) :
    ∀ (fuel : Nat) (paths : List FsPath) (d : FsPath),
      d ∈ (workspace_scan_go fs fuel paths).enumerated →
      (d ∈ paths ∧ 1 ≤ fuel)
      ∨ (should_search_for_environments_in_path d = true
         ∧ ∃ r ∈ paths, ∃ s : List String,
             d = r ++ s ∧ 1 ≤ s.length ∧ s.length + 1 ≤ fuel) := by
  intro fuel
  induction fuel with
  | zero =>
    intro paths d hd
    simp [workspace_scan_go] at hd
  | succ fuel ih =>
    intro paths d hd
    simp only [workspace_scan_go] at hd
    rcases List.mem_flatMap.mp hd with ⟨out, hout, hdout⟩
    rcases List.mem_map.mp hout with ⟨path, hpath, rfl⟩
    have hpaths : path ∈ paths := (List.mem_filter.mp hpath).1
    cases hrd : fs.readDir path with
    | none =>
      rw [hrd] at hdout
      simp only [List.mem_singleton] at hdout
      exact Or.inl ⟨hdout ▸ hpaths, by omega⟩
    | some reader =>
      rw [hrd] at hdout
      simp only [List.mem_cons, List.mem_flatMap, List.mem_map] at hdout
      rcases hdout with rfl | ⟨ro, ⟨entry, hentry, rfl⟩, hdro⟩
      · exact Or.inl ⟨hpaths, by omega⟩
      · rcases ih entry d hdro with ⟨hin, hf⟩ | ⟨hss, r, hr, s, hds, hs1, hs2⟩
        · have hsub := mem_of_mem_batch hentry hin
          rcases List.mem_filter.mp hsub with ⟨hmap, hssd⟩
          rcases List.mem_map.mp hmap with ⟨de, hde, rfl⟩
          refine Or.inr ⟨hssd, path, hpaths, [de.name], rfl, by simp, by simp; omega⟩
        · have hsub := mem_of_mem_batch hentry hr
          rcases List.mem_filter.mp hsub with ⟨hmap, hssr⟩
          rcases List.mem_map.mp hmap with ⟨de, hde, rfl⟩
          refine Or.inr ⟨hss, path, hpaths, [de.name] ++ s, ?_, by simp, ?_⟩
          · rw [hds, List.append_assoc]
          · simp only [List.length_append, List.length_cons, List.length_nil]
            omega

/-- C5: the workspace scan never visits below the configured depth limit:
in general every directory handed to workspace-mode extraction extends a
supplied root by at most max_depth - depth extra components, and with the
default limit (depth 0, max_depth 1, as invoked by find_and_report_envs)
only the supplied roots and their immediate child directories are ever
scanned for executables, and only the roots themselves are ever
enumerated — no recursion occurs below the child level.  (Termination is
the totality of workspace_scan itself: the depth budget max_depth - depth
strictly decreases on every recursive call.) -/
theorem workspace_scan_depth_bound (fs : FS) (roots : List FsPath) :
    (∀ d ∈ (find_envs_in_workspace_folders fs roots).probed,
      d ∈ roots ∨ ∃ r ∈ roots, ∃ c : String, d = r ++ [c])
    ∧ (∀ d ∈ (find_envs_in_workspace_folders fs roots).enumerated, d ∈ roots)
    ∧ (∀ (depth max_depth : Nat),
        ∀ d ∈ (workspace_scan fs roots depth max_depth).probed,
        d ∈ roots
        ∨ ∃ r ∈ roots, ∃ s : List String,
            d = r ++ s ∧ 1 ≤ s.length ∧ s.length ≤ max_depth - depth) := by
  refine ⟨?_, ?_, ?_⟩
  · intro d hd
    rcases scan_probed_mem fs 1 roots d hd with h | ⟨-, r, hr, s, hds, hs1, hs2⟩
    · exact Or.inl h
    · right
      refine ⟨r, hr, ?_⟩
      match s, hs1, hs2 with
      | [c], _, _ => exact ⟨c, hds⟩
  · intro d hd
    rcases scan_enumerated_mem fs 1 roots d hd with ⟨h, -⟩ | ⟨-, r, hr, s, hds, hs1, hs2⟩
    · exact h
    · omega
  · intro depth max_depth d hd
    exact scan_probed_mem fs (max_depth - depth) roots d hd |>.imp id
      fun ⟨_, r, hr, s, hds, hs1, hs2⟩ => ⟨r, hr, s, hds, hs1, hs2⟩

/-- C6: a directory whose name is on the ignore list (and which is not
itself one of the supplied roots) is never handed to extraction and never
enumerated by the workspace scan, at any depth configuration. -/
theorem workspace_scan_never_visits_ignored (fs : FS) (paths : List FsPath)
    (depth max_depth : Nat) (d : FsPath)
    (hignored : should_search_for_environments_in_path d = false)
    (hroot : d ∉ paths) :
    d ∉ (workspace_scan fs paths depth max_depth).probed
    ∧ d ∉ (workspace_scan fs paths depth max_depth).enumerated := by
  constructor
  · intro hd
    rcases scan_probed_mem fs (max_depth - depth) paths d hd with h | ⟨hss, -⟩
    · exact hroot h
    · rw [hignored] at hss
      exact Bool.false_ne_true hss
  · intro hd
    rcases scan_enumerated_mem fs (max_depth - depth) paths d hd with ⟨h, -⟩ | ⟨hss, -⟩
    · exact hroot h
    · rw [hignored] at hss
      exact Bool.false_ne_true hss

/-- A workspace root with a node_modules subdirectory and a project
subdirectory. -/
def fs4 : FS :=
  { metadata := fun _ => none,
    readDir := fun p =>
      if p = ["w"] then
        some [{ name := "node_modules", is_dir := some true },
              { name := "proj", is_dir := some true }]
      else none }

/-- C5 witness: on the fixture, the child directory w/proj is probed and
the theorem places every probed directory at the root or child level. -/
theorem workspace_scan_depth_bound_witness :
    (["w", "proj"] ∈ (find_envs_in_workspace_folders fs4 [["w"]]).probed)
    ∧ ((["w", "proj"] : FsPath) ∈ [(["w"] : FsPath)]
       ∨ ∃ r ∈ [(["w"] : FsPath)], ∃ c : String, ["w", "proj"] = r ++ [c]) :=
  ⟨by decide,
   (workspace_scan_depth_bound fs4 [["w"]]).1 ["w", "proj"] (by decide)⟩

/-- C6 witness: on the fixture, the node_modules subdirectory is neither
probed nor enumerated. -/
theorem workspace_scan_never_visits_ignored_witness :
    ["w", "node_modules"] ∉ (workspace_scan fs4 [["w"]] 0 1).probed
    ∧ ["w", "node_modules"] ∉ (workspace_scan fs4 [["w"]] 0 1).enumerated :=
  workspace_scan_never_visits_ignored fs4 [["w"]] 0 1 ["w", "node_modules"]
    (by decide) (by decide)

/-! ## C8: Poetry locator memoization -/

/-- The answer find_with_cache gives without searching: the memo when
both the environment list and the manager are recorded, otherwise
nothing. -/
def memoAnswer (s : PoetryState) : Option LocatorResult :=
  match s.manager with
  | some manager =>
    if !s.environments.isEmpty then
      some { managers := [manager.to_manager], environments := s.environments }
    else none
  | none => none

theorem find_with_cache_of_searched (w : PoetryWorld) (s : PoetryState)
    (h : s.searched = true) :
    Poetry.find_with_cache w s = (s, memoAnswer s, 0) := by
  unfold Poetry.find_with_cache memoAnswer
  cases s.manager with
  | none => simp [h]
  | some m => by_cases he : s.environments.isEmpty <;> simp [he, h]

theorem configure_preserves_memo (s : PoetryState) (c : Configuration) :
    (Poetry.configure s c).searched = s.searched
    ∧ (Poetry.configure s c).environments = s.environments
    ∧ (Poetry.configure s c).manager = s.manager := by
  unfold Poetry.configure
  cases c.search_paths with
  | none => cases c.poetry_executable <;> simp
  | some sp => by_cases hsp : sp.isEmpty <;> cases c.poetry_executable <;> simp [hsp]

/-- The poetry executables of the counterexample world. -/
def poetryExe : FsPath := ["bin", "poetry"]

/-- The filesystem of the Poetry fixtures: two venv prefixes, each with a
bin/python. -/
def fsP : FS :=
  { metadata := fun p =>
      if p = ["venv1"] ∨ p = ["venv1", "bin"] ∨ p = ["venv1", "bin", "python"]
          ∨ p = ["venv2"] ∨ p = ["venv2", "bin"] ∨ p = ["venv2", "bin", "python"] then
        some { created := some 1, modified := some 1 }
      else none,
    readDir := fun p =>
      if p = ["venv1", "bin"] ∨ p = ["venv2", "bin"] then
        some [{ name := "python", is_dir := some false }]
      else none }

/-- The Poetry world of the counterexample: the listing command answers
venv1 for proj1 and venv2 for proj2, so a re-run after reconfiguration
would produce different environments. -/
def wP : PoetryWorld :=
  { fs := fsP,
    is_file := fun p => p = poetryExe,
    env_list := fun exe proj =>
      if exe = poetryExe ∧ proj = ["proj1"] then some [["venv1"]]
      else if exe = poetryExe ∧ proj = ["proj2"] then some [["venv2"]]
      else none,
    version_lookup := fun _ => none }

/-- The initial Poetry locator state (Poetry::from). -/
def poetryS0 : PoetryState :=
  { project_dirs := [], poetry_executable := some poetryExe, searched := false,
    environments := [], manager := none }

/-- Configuration pointing the locator at proj1. -/
def cfg1 : Configuration :=
  { search_paths := some [["proj1"]], environment_paths := none,
    poetry_executable := some poetryExe }

/-- Configuration pointing the locator at proj2. -/
def cfg2 : Configuration :=
  { search_paths := some [["proj2"]], environment_paths := none,
    poetry_executable := some poetryExe }

/-- C8 counterexample: after discovery completes, reconfiguring the
locator does NOT cause discovery to re-run — a second find after
configure(cfg2) invokes the external poetry listing zero times and
returns the memo built under cfg1 (the venv1 environment), even though
the new configuration's project directories (proj2) would list venv2. -/
theorem poetry_reconfigure_counterexample :
    (Poetry.find_with_cache wP (Poetry.configure poetryS0 cfg1)).2.2 = 1
    ∧ ((Poetry.find_with_cache wP
        (Poetry.configure (Poetry.find_with_cache wP
          (Poetry.configure poetryS0 cfg1)).1 cfg2)).2.2 = 0
    ∧ (Poetry.configure (Poetry.find_with_cache wP
        (Poetry.configure poetryS0 cfg1)).1 cfg2).project_dirs = [["proj2"]]
    ∧ ((Poetry.find_with_cache wP
        (Poetry.configure (Poetry.find_with_cache wP
          (Poetry.configure poetryS0 cfg1)).1 cfg2)).2.1.map
            fun r => r.environments.map fun e => e.prefixDir)
        = some [some ["venv1"]]
    ∧ wP.env_list poetryExe ["proj2"] = some [["venv2"]]) := by
  constructor
  · decide
  · refine ⟨by decide, by decide, by decide, by decide⟩

/-- C8 (amended): once the Poetry locator's discovery has completed (any
find_with_cache call leaves the searched flag set unless it was answered
from an existing memo), every later find_with_cache call — also through
try_from and find — is answered without re-invoking the external poetry
listing command and leaves the state unchanged; configure replaces the
search roots (when non-empty) and the poetry-executable override but does
NOT invalidate the memo or the searched flag, so after reconfiguration the
locator still performs zero external invocations and returns the answer
memoized under the old configuration. -/
theorem poetry_memoization_amended :
    (∀ (w : PoetryWorld) (s : PoetryState),
      ((Poetry.find_with_cache w s).1).searched = true
      ∨ ((Poetry.find_with_cache w s).1 = s ∧ s.manager.isSome = true
         ∧ s.environments ≠ []))
    ∧ (∀ (w : PoetryWorld) (s : PoetryState), s.searched = true →
        (Poetry.find_with_cache w s).1 = s ∧ (Poetry.find_with_cache w s).2.2 = 0)
    ∧ (∀ (s : PoetryState) (c : Configuration),
        (Poetry.configure s c).searched = s.searched
        ∧ (Poetry.configure s c).environments = s.environments
        ∧ (Poetry.configure s c).manager = s.manager)
    ∧ (∀ (s : PoetryState) (c : Configuration) (sp : List FsPath) (e : FsPath),
        (c.search_paths = some sp → sp ≠ [] →
          (Poetry.configure s c).project_dirs = sp)
        ∧ (c.poetry_executable = some e →
          (Poetry.configure s c).poetry_executable = some e))
    ∧ (∀ (w w2 : PoetryWorld) (s : PoetryState) (c : Configuration)
         (e : PythonEnv), s.searched = true →
        (Poetry.find_with_cache w2 (Poetry.configure s c)).2.2 = 0
        ∧ (Poetry.find_with_cache w2 (Poetry.configure s c)).2.1
            = (Poetry.find_with_cache w s).2.1
        ∧ (Poetry.tryFrom w s e).2.2 = 0
        ∧ (Poetry.findReport w s).2.2 = 0) := by
  have hconf := configure_preserves_memo
  refine ⟨?_, ?_, hconf, ?_, ?_⟩
  · intro w s
    unfold Poetry.find_with_cache Poetry.runSearch
    cases s.manager with
    | none =>
      by_cases hs : s.searched
      · simp [hs]
      · simp only [Bool.not_eq_true] at hs
        simp only [hs, Bool.false_eq_true, if_false]
        cases PoetryManager.find w s.poetry_executable <;> simp
    | some m =>
      by_cases he : s.environments.isEmpty
      · by_cases hs : s.searched
        · simp [he, hs]
        · simp only [Bool.not_eq_true] at hs
          simp only [he, hs, Bool.not_true, Bool.false_eq_true, if_false]
          cases PoetryManager.find w s.poetry_executable <;> simp
      · right
        refine ⟨by simp [he], by simp, fun hnil => by simp [hnil] at he⟩
  · intro w s hs
    rw [find_with_cache_of_searched w s hs]
    exact ⟨rfl, rfl⟩
  · intro s c sp e
    constructor
    · intro hsp hne
      unfold Poetry.configure
      rw [hsp]
      have : sp.isEmpty = false := by simpa [List.isEmpty_iff] using hne
      cases c.poetry_executable <;> simp [this]
    · intro he
      unfold Poetry.configure
      rw [he]
  · intro w w2 s c e hs
    have hc := configure_preserves_memo s c
    have hs2 : (Poetry.configure s c).searched = true := by rw [hc.1, hs]
    rw [find_with_cache_of_searched w2 _ hs2, find_with_cache_of_searched w s hs]
    refine ⟨rfl, ?_, ?_, ?_⟩
    · show memoAnswer (Poetry.configure s c) = memoAnswer s
      unfold memoAnswer
      rw [hc.2.1, hc.2.2]
    · unfold Poetry.tryFrom
      rw [find_with_cache_of_searched w s hs]
      cases memoAnswer s <;> simp
    · unfold Poetry.findReport
      rw [find_with_cache_of_searched w s hs]
      cases memoAnswer s <;> simp

/-- C8 amended witness: the concrete post-discovery state of the
counterexample run is answered with zero external invocations even after
reconfiguration. -/
theorem poetry_memoization_amended_witness :
    (Poetry.find_with_cache wP
      (Poetry.configure
        (Poetry.find_with_cache wP (Poetry.configure poetryS0 cfg1)).1 cfg2)).2.2
      = 0 :=
  (poetry_memoization_amended.2.2.2.2 wP wP
    (Poetry.find_with_cache wP (Poetry.configure poetryS0 cfg1)).1 cfg2
    { executable := ["x"], prefixDir := none, version := none }
    (by decide)).1

/-! ## C9: order machinery for the path comparator -/

/-- A lawful three-way comparator: equality is exact, swapping arguments
swaps the verdict, and strict-less is transitive. -/
structure LawCmp (cmp : α → α → Ordering) : Prop where
  eq_iff : ∀ a b, cmp a b = Ordering.eq ↔ a = b
  swap_eq : ∀ a b, (cmp a b).swap = cmp b a
  lt_trans : ∀ a b c, cmp a b = Ordering.lt → cmp b c = Ordering.lt →
    cmp a c = Ordering.lt

theorem chCmp_law : LawCmp chCmp := by
  refine ⟨?_, ?_, ?_⟩
  · intro a b
    unfold chCmp
    rw [Nat.compare_eq_eq]
    exact ⟨fun h => Char.ext (UInt32.toNat.inj h), fun h => by rw [h]⟩
  · intro a b
    unfold chCmp
    rcases Nat.lt_trichotomy a.toNat b.toNat with h | h | h
    · rw [Nat.compare_eq_lt.mpr h, Nat.compare_eq_gt.mpr h]
      rfl
    · rw [Nat.compare_eq_eq.mpr h, Nat.compare_eq_eq.mpr h.symm]
      rfl
    · rw [Nat.compare_eq_gt.mpr h, Nat.compare_eq_lt.mpr h]
      rfl
  · intro a b c hab hbc
    unfold chCmp at hab hbc ⊢
    exact Nat.compare_eq_lt.mpr
      (Nat.lt_trans (Nat.compare_eq_lt.mp hab) (Nat.compare_eq_lt.mp hbc))

theorem listCmp_eq_iff (cmp : α → α → Ordering) (h : LawCmp cmp) :
    ∀ as bs, listCmp cmp as bs = Ordering.eq ↔ as = bs := by
  intro as
  induction as with
  | nil => intro bs; cases bs <;> simp [listCmp]
  | cons a as ih =>
    intro bs
    cases bs with
    | nil => simp [listCmp]
    | cons b bs =>
      simp only [listCmp]
      cases hc : cmp a b with
      | eq =>
        have hab : a = b := (h.eq_iff a b).mp hc
        simp [hab, ih bs]
      | lt =>
        simp only []
        constructor
        · intro hx; cases hx
        · intro hx
          injection hx with h1 h2
          rw [(h.eq_iff a b).mpr h1] at hc
          cases hc
      | gt =>
        simp only []
        constructor
        · intro hx; cases hx
        · intro hx
          injection hx with h1 h2
          rw [(h.eq_iff a b).mpr h1] at hc
          cases hc

theorem listCmp_swap (cmp : α → α → Ordering) (h : LawCmp cmp) :
    ∀ as bs, (listCmp cmp as bs).swap = listCmp cmp bs as := by
  intro as
  induction as with
  | nil => intro bs; cases bs <;> rfl
  | cons a as ih =>
    intro bs
    cases bs with
    | nil => rfl
    | cons b bs =>
      simp only [listCmp]
      cases hc : cmp a b with
      | eq =>
        have hba : cmp b a = Ordering.eq := by rw [← h.swap_eq, hc]; rfl
        rw [hba]
        exact ih bs
      | lt =>
        have hba : cmp b a = Ordering.gt := by rw [← h.swap_eq, hc]; rfl
        rw [hba]
        rfl
      | gt =>
        have hba : cmp b a = Ordering.lt := by rw [← h.swap_eq, hc]; rfl
        rw [hba]
        rfl

theorem listCmp_lt_trans (cmp : α → α → Ordering) (h : LawCmp cmp) :
    ∀ as bs cs, listCmp cmp as bs = Ordering.lt →
      listCmp cmp bs cs = Ordering.lt → listCmp cmp as cs = Ordering.lt := by
  intro as
  induction as with
  | nil =>
    intro bs cs hab hbc
    cases bs with
    | nil => cases hab
    | cons b bs =>
      cases cs with
      | nil => cases hbc
      | cons c cs => rfl
  | cons a as ih =>
    intro bs cs hab hbc
    cases bs with
    | nil => cases hab
    | cons b bs =>
      cases cs with
      | nil => cases hbc
      | cons c cs =>
        simp only [listCmp] at hab hbc ⊢
        cases hcab : cmp a b with
        | eq =>
          have hab2 : a = b := (h.eq_iff a b).mp hcab
          rw [hcab] at hab
          cases hcbc : cmp b c with
          | eq =>
            have hbc2 : b = c := (h.eq_iff b c).mp hcbc
            rw [hcbc] at hbc
            rw [(h.eq_iff a c).mpr (hab2.trans hbc2)]
            exact ih bs cs hab hbc
          | lt =>
            rw [hab2, hcbc]
          | gt => rw [hcbc] at hbc; cases hbc
        | lt =>
          cases hcbc : cmp b c with
          | eq =>
            have hbc2 : b = c := (h.eq_iff b c).mp hcbc
            rw [← hbc2, hcab]
          | lt => rw [h.lt_trans a b c hcab hcbc]
          | gt => rw [hcbc] at hbc; cases hbc
        | gt => rw [hcab] at hab; cases hab

theorem listCmp_law (cmp : α → α → Ordering) (h : LawCmp cmp) :
    LawCmp (listCmp cmp) :=
  ⟨listCmp_eq_iff cmp h, listCmp_swap cmp h, listCmp_lt_trans cmp h⟩

theorem strCmp_law : LawCmp strCmp := by
  have h := listCmp_law chCmp chCmp_law
  refine ⟨?_, fun a b => h.swap_eq a.data b.data, fun a b c => h.lt_trans _ _ _⟩
  intro a b
  rw [show strCmp a b = listCmp chCmp a.data b.data from rfl, h.eq_iff]
  exact ⟨String.ext, fun hx => by rw [hx]⟩

theorem pathCmp_law : LawCmp pathCmp :=
  listCmp_law strCmp strCmp_law

theorem pathLe_refl (a : FsPath) : pathLe a a = true := by
  unfold pathLe
  rw [(pathCmp_law.eq_iff a a).mpr rfl]
  decide

theorem pathLe_total (a b : FsPath) : pathLe a b = true ∨ pathLe b a = true := by
  unfold pathLe
  cases hc : pathCmp a b with
  | lt => left; simp
  | eq => left; simp
  | gt =>
    right
    have := pathCmp_law.swap_eq a b
    rw [hc] at this
    rw [← this]
    decide

theorem pathLe_trans (a b c : FsPath) (hab : pathLe a b = true)
    (hbc : pathLe b c = true) : pathLe a c = true := by
  unfold pathLe at hab hbc ⊢
  cases hcab : pathCmp a b with
  | gt => rw [hcab] at hab; simp at hab
  | eq =>
    rw [(pathCmp_law.eq_iff a b).mp hcab]
    exact hbc
  | lt =>
    cases hcbc : pathCmp b c with
    | gt => rw [hcbc] at hbc; simp at hbc
    | eq =>
      rw [← (pathCmp_law.eq_iff b c).mp hcbc, hcab]
      decide
    | lt =>
      rw [pathCmp_law.lt_trans a b c hcab hcbc]
      decide

theorem pathLe_antisymm (a b : FsPath) (hab : pathLe a b = true)
    (hba : pathLe b a = true) : a = b := by
  unfold pathLe at hab hba
  cases hc : pathCmp a b with
  | eq => exact (pathCmp_law.eq_iff a b).mp hc
  | gt => rw [hc] at hab; simp at hab
  | lt =>
    have := pathCmp_law.swap_eq a b
    rw [hc] at this
    rw [← this] at hba
    simp at hba
    exact absurd (by decide : Ordering.lt.swap = Ordering.gt) hba

instance : IsTotal FsPath pathLeP :=
  ⟨fun a b => pathLe_total a b⟩

instance : IsTrans FsPath pathLeP :=
  ⟨fun a b c => pathLe_trans a b c⟩

theorem dedupAdj_sublist [DecidableEq α] : ∀ l : List α, List.Sublist (dedupAdj l) l
  | [] => by simp [dedupAdj]
  | [a] => by simp [dedupAdj]
  | a :: b :: l => by
    unfold dedupAdj
    by_cases h : a = b
    · simp only [h, if_true]
      exact (dedupAdj_sublist (b :: l)).cons b
    · simp only [h, if_false]
      exact (dedupAdj_sublist (b :: l)).cons₂ a

theorem dedupAdj_pairwise_strict :
    ∀ l : List FsPath, l.Pairwise pathLeP →
      (dedupAdj l).Pairwise fun a b => pathLeP a b ∧ a ≠ b
  | [] => by simp [dedupAdj]
  | [a] => by simp [dedupAdj]
  | a :: b :: l => fun h => by
    rw [List.pairwise_cons] at h
    rcases h with ⟨h1, h2⟩
    unfold dedupAdj
    by_cases hab : a = b
    · simp only [hab, if_true]
      exact dedupAdj_pairwise_strict (b :: l) h2
    · simp only [hab, if_false]
      rw [List.pairwise_cons]
      refine ⟨?_, dedupAdj_pairwise_strict (b :: l) h2⟩
      intro x hx
      have hxbl : x ∈ b :: l := (dedupAdj_sublist (b :: l)).subset hx
      refine ⟨h1 x hxbl, ?_⟩
      intro hax
      rcases List.mem_cons.mp hxbl with rfl | hxl
      · exact hab hax
      · rw [List.pairwise_cons] at h2
        have hbx : pathLeP b x := h2.1 x hxl
        have hba : pathLeP b a := hax ▸ hbx
        exact hab (pathLe_antisymm a b (h1 b (by simp)) hba)

theorem dedupAdj_nodup (l : List FsPath) (h : l.Pairwise pathLeP) :
    (dedupAdj l).Nodup :=
  (dedupAdj_pairwise_strict l h).imp fun hx => hx.2

/-- C9: list_global_virtual_envs_paths always returns a list sorted by the
path order, free of duplicates, with every entry of every global
virtual-env directory that is recognized as a conda environment filtered
out. -/
theorem global_venv_paths_sorted_nodup_no_conda (w : GlobalVenvWorld)
    (work_on_home_env_var user_home : Option FsPath) :
    (list_global_virtual_envs_paths w work_on_home_env_var user_home).Pairwise pathLeP
    ∧ (list_global_virtual_envs_paths w work_on_home_env_var user_home).Nodup
    ∧ ∀ p ∈ list_global_virtual_envs_paths w work_on_home_env_var user_home,
        w.is_conda_env p = false := by
  unfold list_global_virtual_envs_paths
  have hsorted :
      (List.insertionSort pathLeP
        ((get_global_virtualenv_dirs w work_on_home_env_var user_home).flatMap
          fun root_dir =>
            match w.fs.readDir root_dir with
            | some dirs =>
              (dirs.map fun e => root_dir ++ [e.name]).filter fun p => !w.is_conda_env p
            | none => [])).Pairwise pathLeP :=
    List.sorted_insertionSort pathLeP _
  refine ⟨hsorted.sublist (dedupAdj_sublist _), dedupAdj_nodup _ hsorted, ?_⟩
  intro p hp
  have hp2 := (dedupAdj_sublist _).subset hp
  have hp3 := (List.perm_insertionSort pathLeP _).subset hp2
  rcases List.mem_flatMap.mp hp3 with ⟨root_dir, hroot, hpd⟩
  cases hrd : w.fs.readDir root_dir with
  | none => rw [hrd] at hpd; simp at hpd
  | some dirs =>
    rw [hrd] at hpd
    have := (List.mem_filter.mp hpd).2
    simpa using this

/-- The fixture world for global virtual envs: one parent directory
home/envs with entries b, a, c, a, of which c is a conda environment. -/
def wG : GlobalVenvWorld :=
  { fs := { metadata := fun p =>
              if p = ["home", "envs"] then some { created := some 1, modified := some 1 }
              else none,
            readDir := fun p =>
              if p = ["home", "envs"] then
                some [{ name := "b", is_dir := some true },
                      { name := "a", is_dir := some true },
                      { name := "c", is_dir := some true },
                      { name := "a", is_dir := some true }]
              else none },
    norm_case := fun p => p,
    is_conda_env := fun p => p = ["home", "envs", "c"] }

/-- C9 witness: a concrete member of the returned list is not a conda
environment. -/
theorem global_venv_paths_sorted_nodup_no_conda_witness :
    wG.is_conda_env ["home", "envs", "a"] = false :=
  (global_venv_paths_sorted_nodup_no_conda wG none (some ["home"])).2.2
    ["home", "envs", "a"] (by decide)
